import Mathlib

/-!
Verification of the CSV ingestion + reconciliation core of the report
generator (`report_from_csv.py` / `main.py`).

Floats are modelled as rationals (`ℚ`); CSV rows are modelled after the
`csv.DictReader` stage as association lists from column name to field
value; Python's `None`-or-value fields are `Option`s.
-/

namespace Report

/-- A parsed CSV data row, as produced by `csv.DictReader`: a finite map
from column name to field value; `row.get c` is association-list lookup. -/
def Row : Type := List (String × String)

/-- Lookup in an association list keyed by strings (Python `dict.get`:
keys are unique in a `DictReader` row, so first match suffices). -/
def alistGet {β : Type} : List (String × β) → String → Option β
  | [], _ => none
  | e :: t, k => if e.1 = k then some e.2 else alistGet t k

/-- Python `str.lower()` (the headers involved are ASCII or Japanese,
where `Char.toLower` agrees with Python). -/
def lowerStr (s : String) : String := String.mk (s.data.map Char.toLower)

/-- Predicate `leadEq needle hay`: `needle` is an initial segment of `hay`. -/
def leadEq : List Char → List Char → Bool
  | [], _ => true
  | _ :: _, [] => false
  | a :: as, b :: bs => a = b && leadEq as bs

/-- Predicate `hasSub needle hay`: `needle` occurs contiguously inside `hay`
(Python's `needle in hay` on strings). -/
def hasSub : List Char → List Char → Bool
  | needle, [] => needle.isEmpty
  | needle, c :: t => leadEq needle (c :: t) || hasSub needle t

/-- Python `sub in hay` for strings. -/
def strHasSub (hay sub : String) : Bool := hasSub sub.data hay.data

/-- Lookup in the Python dict `{h.lower(): h for h in headers}`: comprehension
entries with equal lowercased key overwrite, so the LAST such header wins. -/
def dictLookupLower (headers : List String) (key : String) : Option String :=
  (headers.filter (fun h => lowerStr h = key)).getLast?

/-- Exact-match candidate list per column kind (`guess_column`'s
`candidates`, from `report_from_csv.py`). -/
def candFor : String → List String
  | "url" => ["url", "page url", "link url", "リンクurl", "リンク url", "ページurl"]
  | "traffic" => ["traffic", "organic traffic", "search traffic", "トラフィック", "オーガニックトラフィック"]
  | "keyword" => ["top keyword", "top keywords", "keyword", "keywords", "キーワード", "トップキーワード"]
  | _ => []

/-- Substring-token list per column kind (`guess_column`'s `contains`). -/
def tokFor : String → List String
  | "url" => ["url", "ページ", "リンク"]
  | "traffic" => ["traffic", "トラフィック"]
  | "keyword" => ["keyword", "キーワード"]
  | _ => []

/-- Model of `guess_column(headers, kind)`: exact (lowercased) match against the
kind's candidate list in candidate order, then substring match scanning
headers in order; `None` for an unknown kind or when neither pass hits. -/
def guess_column (headers : List String) (kind : String) : Option String :=
  if kind = "url" ∨ kind = "traffic" ∨ kind = "keyword" then
    match (candFor kind).findSome? (fun cand => dictLookupLower headers cand) with
    | some h => some h
    | none => headers.find? (fun h => (tokFor kind).any (fun ck => strHasSub (lowerStr h) ck))
  else
    none

/-- One normalized row of one period's CSV (`{"url": ..., "traffic": ...,
"top_keyword": ...}`); `top_keyword` may be Python `None`. -/
structure PageRecord where
  url : String
  traffic : ℚ
  top_keyword : Option String
deriving Repr, DecidableEq

/-- Strip ASCII whitespace from both ends of a character list
(Python `str.strip()`). -/
def stripChars (l : List Char) : List Char :=
  ((l.dropWhile Char.isWhitespace).reverse.dropWhile Char.isWhitespace).reverse

/-- Cleanup step `traffic_raw.replace(",", "").strip()`. -/
def cleanTraffic (s : String) : String :=
  String.mk (stripChars (s.data.filter (fun c => c ≠ ',')))

/-- Value of a digit string read in base 10. -/
def digitsVal (l : List Char) : ℕ :=
  l.foldl (fun a c => a * 10 + (c.toNat - 48)) 0

/-- Split a character list at the first `'.'`, if any. -/
def splitAtDot : List Char → List Char × Option (List Char)
  | [] => ([], none)
  | c :: t =>
    if c = '.' then ([], some t)
    else
      match splitAtDot t with
      | (ip, rest) => (c :: ip, rest)

/-- Magnitude of an unsigned plain decimal literal: digits, optionally with
one decimal point, at least one digit in total. -/
def pyUnsigned (body : List Char) : Option ℚ :=
  match splitAtDot body with
  | (ip, none) =>
    if ip ≠ [] ∧ ip.all Char.isDigit then some ((digitsVal ip : ℕ) : ℚ) else none
  | (ip, some fp) =>
    if (ip ≠ [] ∨ fp ≠ []) ∧ ip.all Char.isDigit ∧ fp.all Char.isDigit then
      some ((digitsVal ip : ℚ) + (digitsVal fp : ℚ) / (10 : ℚ) ^ fp.length)
    else none

/-- Model of Python's built-in `float()` on the fragment this program
feeds it: an optionally signed plain decimal literal (digits, optionally
with one decimal point; at least one digit). Anything else — including
`""`, `"-"` and strings with a second `'.'` — fails (`ValueError`). -/
def pyFloatCore : List Char → Option ℚ
  | '-' :: t => (pyUnsigned t).map (fun q => -q)
  | '+' :: t => pyUnsigned t
  | l => pyUnsigned l

/-- Python `float(s)` on cleaned traffic strings. -/
def pyFloat (s : String) : Option ℚ := pyFloatCore s.data

/-- Python falsiness of an optional string (`not x`): `None` or `""`. -/
def pyFalsy : Option String → Bool
  | none => true
  | some s => s = ""

/-- The per-row body of `load_csv_pages_auto`'s loop: `none` when the row
is skipped (`continue`), `some` the emitted record otherwise. -/
def extractRow (url_col traffic_col keyword_col : String) (row : Row) : Option PageRecord :=
  match alistGet row url_col with
  | none => none
  | some url =>
    if url = "" then none
    else
      match alistGet row traffic_col with
      | none => none
      | some traffic_raw =>
        if traffic_raw = "" then none
        else if cleanTraffic traffic_raw = "" then none
        else
          match pyFloat (cleanTraffic traffic_raw) with
          | none => none
          | some traffic => some ⟨url, traffic, alistGet row keyword_col⟩

/-- The `ValueError` raised when required columns cannot be resolved:
carries the names of the unresolved fields and the observed header list. -/
structure MissingColumnError where
  missing : List String
  headers : List String
deriving Repr, DecidableEq

/-- Resolution `url_col_opt or guess_column(headers, kind)`. -/
def resolveCol (opt : Option String) (headers : List String) (kind : String) : Option String :=
  opt.orElse (fun _ => guess_column headers kind)

/-- The `missing` list built by `load_csv_pages_auto` before row scanning. -/
def missingOf (url_col traffic_col keyword_col : Option String) : List String :=
  (if url_col.isNone then ["URL"] else []) ++
  (if traffic_col.isNone then ["Traffic"] else []) ++
  (if keyword_col.isNone then ["Top keyword"] else [])

/-- Model of `load_csv_pages_auto`, from the `DictReader` stage on: resolve the three
columns (explicit override or inference), fail with `MissingColumnError`
when any is unresolved, otherwise scan the data rows with the skip rules. -/
def load_csv_pages_auto (headers : List String) (rows : List Row)
    (url_col_opt traffic_col_opt keyword_col_opt : Option String) :
    Except MissingColumnError (List PageRecord) :=
  let url_col := resolveCol url_col_opt headers "url"
  let traffic_col := resolveCol traffic_col_opt headers "traffic"
  let keyword_col := resolveCol keyword_col_opt headers "keyword"
  match url_col, traffic_col, keyword_col with
  | some u, some t, some k => .ok (rows.filterMap (extractRow u t k))
  | _, _, _ => .error ⟨missingOf url_col traffic_col keyword_col, headers⟩

/-- The partially filled per-URL dict entry built by `merge_months`
(fields set by the `prev` pass and by the `curr` pass). -/
structure MData where
  prev_traffic : Option ℚ
  top_keyword_prev : Option String
  current_traffic : Option ℚ
  top_keyword_current : Option String
deriving Repr, DecidableEq

/-- A dict entry none of whose fields have been set. -/
def emptyMData : MData := ⟨none, none, none, none⟩

/-- Writes `merged[url]["prev_traffic"] = p["traffic"]` and `merged[url]["top_keyword_prev"] = p.get("top_keyword")`. -/
def setPrevFields (d : MData) (p : PageRecord) : MData :=
  { d with prev_traffic := some p.traffic, top_keyword_prev := p.top_keyword }

/-- Writes `merged[url]["current_traffic"] = p["traffic"]` and `merged[url]["top_keyword_current"] = p.get("top_keyword")`. -/
def setCurrFields (d : MData) (p : PageRecord) : MData :=
  { d with current_traffic := some p.traffic, top_keyword_current := p.top_keyword }

/-- Python `merged.setdefault(url, {})` followed by field writes `f` on the entry
for `url`, on an insertion-ordered association list (Python dict: update in
place when the key exists, else append a fresh entry at the end). -/
def genInsert (m : List (String × MData)) (url : String) (f : MData → MData) :
    List (String × MData) :=
  if (alistGet m url).isSome then
    m.map (fun e => if e.1 = url then (e.1, f e.2) else e)
  else
    m ++ [(url, f emptyMData)]

/-- One iteration of `merge_months`'s first loop (`setdefault` + writes of
the `prev_*` fields). -/
def insertPrev (m : List (String × MData)) (p : PageRecord) : List (String × MData) :=
  genInsert m p.url (fun d => setPrevFields d p)

/-- One iteration of `merge_months`'s second loop. -/
def insertCurr (m : List (String × MData)) (p : PageRecord) : List (String × MData) :=
  genInsert m p.url (fun d => setCurrFields d p)

/-- The reconciled record for one URL across both periods. -/
structure MergedPage where
  url : String
  prev_traffic : ℚ
  current_traffic : ℚ
  diff : ℚ
  diff_ratio : Option ℚ
  top_keyword_prev : Option String
  top_keyword_current : Option String
  is_blog : Bool
deriving Repr, DecidableEq

/-- The body of `merge_months`'s final loop: defaults, diff, ratio under
the `prev_tr > 0` guard, and substring blog classification. -/
def finalizePage (blog_paths : List String) (e : String × MData) : MergedPage :=
  let prev_tr : ℚ := e.2.prev_traffic.getD 0
  let curr_tr : ℚ := e.2.current_traffic.getD 0
  let diff := curr_tr - prev_tr
  let diff_ratio : Option ℚ := if prev_tr > 0 then some (diff / prev_tr * 100) else none
  let is_blog := blog_paths.any (fun path => strHasSub e.1 path)
  ⟨e.1, prev_tr, curr_tr, diff, diff_ratio, e.2.top_keyword_prev, e.2.top_keyword_current, is_blog⟩

/-- Aggregate totals over one subset of merged pages. -/
structure SummaryStats where
  total_traffic_prev : ℚ
  total_traffic_current : ℚ
  total_diff : ℚ
  total_diff_ratio : Option ℚ
  page_count : ℕ
deriving Repr, DecidableEq

/-- Model of `_summarize_pages`: early all-zero return on an empty list, otherwise
sums, their difference, and the ratio under the `total_prev > 0` guard. -/
def _summarize_pages (pages : List MergedPage) : SummaryStats :=
  if pages.isEmpty then ⟨0, 0, 0, none, 0⟩
  else
    let total_prev := (pages.map (fun p => p.prev_traffic)).sum
    let total_current := (pages.map (fun p => p.current_traffic)).sum
    let diff := total_current - total_prev
    let diff_ratio : Option ℚ := if total_prev > 0 then some (diff / total_prev * 100) else none
    ⟨total_prev, total_current, diff, diff_ratio, pages.length⟩

/-- The `{"pages": ..., "summary": {"all": ..., "blog_only": ...}}` result. -/
structure MergeResult where
  pages : List MergedPage
  summary_all : SummaryStats
  summary_blog_only : SummaryStats
deriving Repr, DecidableEq

/-- The per-URL dict after both of `merge_months`'s accumulation loops. -/
def mergedDict (prev_pages curr_pages : List PageRecord) : List (String × MData) :=
  curr_pages.foldl insertCurr (prev_pages.foldl insertPrev [])

/-- Model of `merge_months(prev_pages, curr_pages, blog_paths)` (the Python default
`blog_paths=None` becomes `["/blog", "/column"]`; callers here always pass
it explicitly). -/
def merge_months (prev_pages curr_pages : List PageRecord) (blog_paths : List String) :
    MergeResult :=
  let pages := (mergedDict prev_pages curr_pages).map (finalizePage blog_paths)
  ⟨pages, _summarize_pages pages, _summarize_pages (pages.filter (fun p => p.is_blog))⟩

/-- The user-input error taxonomy surfaced by the pipeline entry point. -/
inductive ReportError where
  | missingColumn : MissingColumnError → ReportError
  | emptyDataset : ReportError
deriving Repr, DecidableEq

/-- The data pipeline of `generate_report` / `main`: extract both files
(no explicit column overrides), reject when BOTH yield no usable rows
(`if not prev_pages and not curr_pages`), else reconcile and aggregate. -/
def generate_report (headers_prev : List String) (rows_prev : List Row)
    (headers_curr : List String) (rows_curr : List Row)
    (blog_paths : List String) : Except ReportError MergeResult :=
  match load_csv_pages_auto headers_prev rows_prev none none none with
  | .error e => .error (.missingColumn e)
  | .ok prev_pages =>
    match load_csv_pages_auto headers_curr rows_curr none none none with
    | .error e => .error (.missingColumn e)
    | .ok curr_pages =>
      if prev_pages.isEmpty ∧ curr_pages.isEmpty then .error .emptyDataset
      else .ok (merge_months prev_pages curr_pages blog_paths)


/-! ## Column-inference lemmas -/

theorem guess_column_of_kind (headers : List String) (kind : String)
    (hk : kind = "url" ∨ kind = "traffic" ∨ kind = "keyword") :
    guess_column headers kind =
      match (candFor kind).findSome? (fun cand => dictLookupLower headers cand) with
      | some h => some h
      | none => headers.find? (fun h => (tokFor kind).any (fun ck => strHasSub (lowerStr h) ck)) := by
  unfold guess_column
  rw [if_pos hk]

theorem dict_none_iff (headers : List String) (c : String) :
    dictLookupLower headers c = none ↔ ∀ h ∈ headers, lowerStr h ≠ c := by
  unfold dictLookupLower
  rw [List.getLast?_eq_none_iff, List.filter_eq_nil_iff]
  simp

theorem dict_some (headers : List String) (c h : String)
    (hs : dictLookupLower headers c = some h) : h ∈ headers ∧ lowerStr h = c := by
  have hm := List.mem_of_getLast?_eq_some hs
  simpa using List.mem_filter.mp hm

theorem exact_pass_none_iff (headers cands : List String) :
    cands.findSome? (fun cand => dictLookupLower headers cand) = none ↔
      ∀ h ∈ headers, lowerStr h ∉ cands := by
  rw [List.findSome?_eq_none_iff]
  constructor
  · intro H h hh hmem
    exact (dict_none_iff headers (lowerStr h)).mp (H _ hmem) h hh rfl
  · intro H c hc
    rw [dict_none_iff]
    intro h hh heq
    exact H h hh (heq ▸ hc)

theorem exact_pass_some (headers cands : List String) (h : String)
    (hs : cands.findSome? (fun cand => dictLookupLower headers cand) = some h) :
    h ∈ headers ∧ lowerStr h ∈ cands := by
  rcases List.findSome?_eq_some_iff.mp hs with ⟨l₁, a, l₂, hcands, ha, -⟩
  rcases dict_some headers a h ha with ⟨hmem, hlow⟩
  refine ⟨hmem, ?_⟩
  rw [hlow, hcands]
  exact List.mem_append.mpr (Or.inr (List.mem_cons_self a l₂))

/-- The Bool matcher of the substring pass, expressed propositionally. -/
theorem sub_matcher_iff (kind h : String) :
    ((tokFor kind).any (fun ck => strHasSub (lowerStr h) ck)) = true ↔
      ∃ ck ∈ tokFor kind, strHasSub (lowerStr h) ck = true := by
  simp [List.any_eq_true]

theorem guess_eq_exact (headers : List String) (kind : String)
    (hk : kind = "url" ∨ kind = "traffic" ∨ kind = "keyword") {h : String}
    (hfs : (candFor kind).findSome? (fun cand => dictLookupLower headers cand) = some h) :
    guess_column headers kind = some h := by
  unfold guess_column
  rw [if_pos hk, hfs]

theorem guess_eq_sub (headers : List String) (kind : String)
    (hk : kind = "url" ∨ kind = "traffic" ∨ kind = "keyword")
    (hfs : (candFor kind).findSome? (fun cand => dictLookupLower headers cand) = none) :
    guess_column headers kind =
      headers.find? (fun h => (tokFor kind).any (fun ck => strHasSub (lowerStr h) ck)) := by
  unfold guess_column
  rw [if_pos hk, hfs]

/-! ## C7: two-pass column inference -/

/-- C7 counterexample: with headers `["organic traffic", "traffic"]` and kind
`traffic`, both headers exact-match a candidate; the first header in original
column order that exact-matches is `"organic traffic"`, yet the function
returns `"traffic"` — candidate-list order, not column order, breaks the tie
at the exact pass. -/
theorem C7_counterexample :
    guess_column ["organic traffic", "traffic"] "traffic" = some "traffic" ∧
    (["organic traffic", "traffic"].find?
      (fun h => decide (lowerStr h ∈ candFor "traffic"))) = some "organic traffic" ∧
    ("traffic" : String) ≠ "organic traffic" := by
  decide

/-- C7 (amended): for every header list and known kind, inference runs a
case-insensitive exact-match pass against the kind's candidate list before
any substring pass, and returns absent only when neither pass matches; at the
substring pass the first header in original column order wins, while at the
exact pass the earliest candidate in the kind's candidate list wins (and
among headers with equal lowercased text, the last in column order). -/
theorem C7_two_pass_structure (headers : List String) (kind : String)
    (hk : kind = "url" ∨ kind = "traffic" ∨ kind = "keyword") :
    (guess_column headers kind = none ↔
      (∀ h ∈ headers, lowerStr h ∉ candFor kind) ∧
      (∀ h ∈ headers, ∀ ck ∈ tokFor kind, strHasSub (lowerStr h) ck = false))
    ∧ ((∃ h ∈ headers, lowerStr h ∈ candFor kind) →
        ∃ h ∈ headers, lowerStr h ∈ candFor kind ∧ guess_column headers kind = some h)
    ∧ (∀ pre cand post, candFor kind = pre ++ cand :: post →
        (∀ c ∈ pre, ∀ h ∈ headers, lowerStr h ≠ c) →
        (∃ h ∈ headers, lowerStr h = cand) →
        guess_column headers kind = (headers.filter (fun h => lowerStr h = cand)).getLast?)
    ∧ (∀ pre h post, headers = pre ++ h :: post →
        (∀ h' ∈ headers, lowerStr h' ∉ candFor kind) →
        (∃ ck ∈ tokFor kind, strHasSub (lowerStr h) ck = true) →
        (∀ h' ∈ pre, ∀ ck ∈ tokFor kind, strHasSub (lowerStr h') ck = false) →
        guess_column headers kind = some h) := by
  refine ⟨?_, ?_, ?_, ?_⟩
  · cases hfs : (candFor kind).findSome? (fun cand => dictLookupLower headers cand) with
    | some h =>
      rw [guess_eq_exact headers kind hk hfs]
      obtain ⟨hmem, hcand⟩ := exact_pass_some headers (candFor kind) h hfs
      simp only [Option.some_ne_none, false_iff]
      intro ⟨H1, _⟩
      exact H1 h hmem hcand
    | none =>
      rw [guess_eq_sub headers kind hk hfs, List.find?_eq_none]
      constructor
      · intro H
        refine ⟨(exact_pass_none_iff headers (candFor kind)).mp hfs, ?_⟩
        intro h hh ck hck
        have hm := H h hh
        rw [sub_matcher_iff] at hm
        push_neg at hm
        simpa using hm ck hck
      · rintro ⟨-, H2⟩ h hh
        rw [sub_matcher_iff]
        rintro ⟨ck, hck, hsub⟩
        rw [H2 h hh ck hck] at hsub
        exact Bool.false_ne_true hsub
  · rintro ⟨h, hh, hc⟩
    cases hfs : (candFor kind).findSome? (fun cand => dictLookupLower headers cand) with
    | none => exact absurd hc ((exact_pass_none_iff headers (candFor kind)).mp hfs h hh)
    | some h' =>
      obtain ⟨hmem, hcand⟩ := exact_pass_some headers (candFor kind) h' hfs
      exact ⟨h', hmem, hcand, guess_eq_exact headers kind hk hfs⟩
  · intro pre cand post hcand hpre hex
    have hdict : dictLookupLower headers cand ≠ none := by
      intro H
      rw [dict_none_iff] at H
      obtain ⟨h, hh, hlow⟩ := hex
      exact H h hh hlow
    obtain ⟨h, hh⟩ := Option.ne_none_iff_exists'.mp hdict
    have hprenone : pre.findSome? (fun c => dictLookupLower headers c) = none := by
      rw [List.findSome?_eq_none_iff]
      intro c hc
      rw [dict_none_iff]
      intro h' hh' heq
      exact hpre c hc h' hh' heq
    have hfs : (candFor kind).findSome? (fun c => dictLookupLower headers c) = some h := by
      rw [hcand, List.findSome?_append, hprenone, Option.none_or,
        List.findSome?_cons_of_isSome _ (by rw [hh]; rfl)]
      exact hh
    rw [guess_eq_exact headers kind hk hfs]
    exact hh.symm
  · intro pre h post hsplit hnoexact hmatch hprefail
    have hfs := (exact_pass_none_iff headers (candFor kind)).mpr hnoexact
    have h1 : pre.find? (fun x => (tokFor kind).any (fun ck => strHasSub (lowerStr x) ck)) = none := by
      rw [List.find?_eq_none]
      intro x hx
      rw [sub_matcher_iff]
      rintro ⟨ck, hck, hsub⟩
      rw [hprefail x hx ck hck] at hsub
      exact Bool.false_ne_true hsub
    rw [guess_eq_sub headers kind hk hfs, hsplit]
    simp only [List.find?_append, h1, Option.none_or]
    exact List.find?_cons_of_pos _ ((sub_matcher_iff kind h).mpr hmatch)

/-- C7 amended-claim witness: headers `["organic traffic", "Traffic"]`, kind
`traffic`: the exact pass fires on the earliest candidate `"traffic"` and
selects `"Traffic"`. -/
theorem C7_two_pass_structure_witness :
    guess_column ["organic traffic", "Traffic"] "traffic" = some "Traffic" :=
  ((C7_two_pass_structure ["organic traffic", "Traffic"] "traffic" (by decide)).2.2.1
    [] "traffic" ["organic traffic", "search traffic", "トラフィック", "オーガニックトラフィック"]
    rfl (by decide) (by decide)).trans (by decide)

/-! ## C8: order-(in)dependence of column inference -/

/-- C8 counterexample: `["atraffic", "btraffic"]` and its permutation
`["btraffic", "atraffic"]` select different headers for kind `traffic`
(the substring pass picks whichever matching header comes first), so
permuting header order does change which header is selected. -/
theorem C8_counterexample :
    ["atraffic", "btraffic"].Perm ["btraffic", "atraffic"] ∧
    guess_column ["atraffic", "btraffic"] "traffic" = some "atraffic" ∧
    guess_column ["btraffic", "atraffic"] "traffic" = some "btraffic" ∧
    (some "atraffic" : Option String) ≠ some "btraffic" :=
  ⟨List.Perm.swap "btraffic" "atraffic" [], by decide, by decide, by decide⟩

theorem guess_isSome_iff (headers : List String) (kind : String)
    (hk : kind = "url" ∨ kind = "traffic" ∨ kind = "keyword") :
    (guess_column headers kind).isSome = true ↔
      ∃ h ∈ headers, (lowerStr h ∈ candFor kind ∨
        ∃ ck ∈ tokFor kind, strHasSub (lowerStr h) ck = true) := by
  cases hfs : (candFor kind).findSome? (fun cand => dictLookupLower headers cand) with
  | some h =>
    rw [guess_eq_exact headers kind hk hfs]
    obtain ⟨hmem, hcand⟩ := exact_pass_some headers (candFor kind) h hfs
    simpa using ⟨h, hmem, Or.inl hcand⟩
  | none =>
    have hnone := (exact_pass_none_iff headers (candFor kind)).mp hfs
    rw [guess_eq_sub headers kind hk hfs]
    rw [show ((headers.find? (fun h => (tokFor kind).any (fun ck => strHasSub (lowerStr h) ck))).isSome = true) ↔
        ∃ h ∈ headers, ((tokFor kind).any (fun ck => strHasSub (lowerStr h) ck)) = true by
      simp [List.find?_isSome]]
    constructor
    · rintro ⟨h, hh, hany⟩
      exact ⟨h, hh, Or.inr ((sub_matcher_iff kind h).mp hany)⟩
    · rintro ⟨h, hh, (hc | hsub)⟩
      · exact absurd hc (hnone h hh)
      · exact ⟨h, hh, (sub_matcher_iff kind h).mpr hsub⟩

/-- C8 (amended): inference is deterministic, and permuting header column
order does not change WHETHER a header is found for a given kind (the
resolvability outcome is permutation-invariant); which header is selected
can change, per the counterexample. -/
theorem C8_resolvability_perm_invariant (hs hs' : List String) (kind : String)
    (hperm : hs.Perm hs') :
    (guess_column hs kind).isSome = (guess_column hs' kind).isSome := by
  by_cases hk : kind = "url" ∨ kind = "traffic" ∨ kind = "keyword"
  · rw [Bool.eq_iff_iff, guess_isSome_iff hs kind hk, guess_isSome_iff hs' kind hk]
    constructor <;> rintro ⟨h, hh, hp⟩
    · exact ⟨h, hperm.mem_iff.mp hh, hp⟩
    · exact ⟨h, hperm.mem_iff.mpr hh, hp⟩
  · unfold guess_column
    rw [if_neg hk, if_neg hk]

/-- C8 amended-claim witness at a concrete permuted pair of header lists. -/
theorem C8_resolvability_witness :
    (guess_column ["btraffic", "atraffic"] "traffic").isSome =
      (guess_column ["atraffic", "btraffic"] "traffic").isSome :=
  C8_resolvability_perm_invariant ["btraffic", "atraffic"] ["atraffic", "btraffic"]
    "traffic" (List.Perm.swap "atraffic" "btraffic" [])

deriving instance DecidableEq for Except

/-! ## C1: end-to-end concrete scenario -/

/-- C1: previous records `(/blog/a, "1,000", kw1)`, `(/about, "500")` and
current records `(/blog/a, "1500")`, `(/contact, "10")` with blog marker
`/blog` produce exactly the three merged pages claimed (diff 500 / ratio 50 /
blog for `/blog/a`; current 0 / diff -500 / ratio -100 / non-blog for
`/about`; prev 0 / absent ratio for `/contact`), with
`summary.all.total_traffic_prev = 1500` and `summary.blog_only.page_count = 1`. -/
theorem C1_end_to_end_scenario :
    generate_report ["URL", "Traffic", "Top keyword"]
      [[("URL", "/blog/a"), ("Traffic", "1,000"), ("Top keyword", "kw1")],
       [("URL", "/about"), ("Traffic", "500")]]
      ["URL", "Traffic", "Top keyword"]
      [[("URL", "/blog/a"), ("Traffic", "1500")],
       [("URL", "/contact"), ("Traffic", "10")]]
      ["/blog"] =
    .ok ⟨[⟨"/blog/a", 1000, 1500, 500, some 50, some "kw1", none, true⟩,
          ⟨"/about", 500, 0, -500, some (-100), none, none, false⟩,
          ⟨"/contact", 0, 10, 10, none, none, none, false⟩],
         ⟨1500, 1510, 10, some (2 / 3), 3⟩,
         ⟨1000, 1500, 500, some 50, 1⟩⟩ := by
  have hp : load_csv_pages_auto ["URL", "Traffic", "Top keyword"]
      [[("URL", "/blog/a"), ("Traffic", "1,000"), ("Top keyword", "kw1")],
       [("URL", "/about"), ("Traffic", "500")]] none none none =
      .ok [⟨"/blog/a", 1000, some "kw1"⟩, ⟨"/about", 500, none⟩] := by decide
  have hc : load_csv_pages_auto ["URL", "Traffic", "Top keyword"]
      [[("URL", "/blog/a"), ("Traffic", "1500")],
       [("URL", "/contact"), ("Traffic", "10")]] none none none =
      .ok [⟨"/blog/a", 1500, none⟩, ⟨"/contact", 10, none⟩] := by decide
  have hd : mergedDict [⟨"/blog/a", 1000, some "kw1"⟩, ⟨"/about", 500, none⟩]
      [⟨"/blog/a", 1500, none⟩, ⟨"/contact", 10, none⟩] =
      [("/blog/a", ⟨some 1000, some "kw1", some 1500, none⟩),
       ("/about", ⟨some 500, none, none, none⟩),
       ("/contact", ⟨none, none, some 10, none⟩)] := by decide
  have hb1 : strHasSub "/blog/a" "/blog" = true := by decide
  have hb2 : strHasSub "/about" "/blog" = false := by decide
  have hb3 : strHasSub "/contact" "/blog" = false := by decide
  have hm : merge_months [⟨"/blog/a", 1000, some "kw1"⟩, ⟨"/about", 500, none⟩]
      [⟨"/blog/a", 1500, none⟩, ⟨"/contact", 10, none⟩] ["/blog"] =
      ⟨[⟨"/blog/a", 1000, 1500, 500, some 50, some "kw1", none, true⟩,
        ⟨"/about", 500, 0, -500, some (-100), none, none, false⟩,
        ⟨"/contact", 0, 10, 10, none, none, none, false⟩],
       ⟨1500, 1510, 10, some (2 / 3), 3⟩,
       ⟨1000, 1500, 500, some 50, 1⟩⟩ := by
    norm_num [merge_months, hd, finalizePage, _summarize_pages, hb1, hb2, hb3]
  simp [generate_report, hp, hc, hm]

/-! ## Association-list machinery for the per-URL merge dict -/

theorem alistGet_append {β : Type} (m₁ m₂ : List (String × β)) (u : String) :
    alistGet (m₁ ++ m₂) u = (alistGet m₁ u).or (alistGet m₂ u) := by
  induction m₁ with
  | nil => simp [alistGet]
  | cons e t ih =>
    by_cases h : e.1 = u
    · simp [alistGet, h]
    · simp [alistGet, h, ih]

theorem alistGet_map_setKey (m : List (String × MData)) (k : String) (f : MData → MData)
    (u : String) :
    alistGet (m.map (fun e => if e.1 = k then (e.1, f e.2) else e)) u =
      if u = k then (alistGet m u).map f else alistGet m u := by
  induction m with
  | nil => simp [alistGet]
  | cons e t ih =>
    by_cases hek : e.1 = k
    · by_cases heu : e.1 = u
      · have huk : u = k := heu ▸ hek
        simp [alistGet, hek, heu, huk]
      · simp only [List.map_cons, if_pos hek]
        rw [show alistGet ((e.1, f e.2) :: t.map (fun e => if e.1 = k then (e.1, f e.2) else e)) u
            = alistGet (t.map (fun e => if e.1 = k then (e.1, f e.2) else e)) u by
          simp [alistGet, heu]]
        rw [ih]
        by_cases huk : u = k
        · exact absurd (hek.trans huk.symm) heu
        · simp [alistGet, heu, huk]
    · by_cases heu : e.1 = u
      · have huk : ¬ u = k := fun h => hek (heu.symm ▸ h)
        simp [alistGet, hek, heu, huk]
      · simp only [List.map_cons, if_neg hek]
        rw [show alistGet (e :: t.map (fun e => if e.1 = k then (e.1, f e.2) else e)) u
            = alistGet (t.map (fun e => if e.1 = k then (e.1, f e.2) else e)) u by
          simp [alistGet, heu]]
        rw [ih]
        by_cases huk : u = k <;> simp [alistGet, heu, huk, hek]

theorem alistGet_isSome_iff {β : Type} (m : List (String × β)) (k : String) :
    (alistGet m k).isSome = true ↔ k ∈ m.map Prod.fst := by
  induction m with
  | nil => simp [alistGet]
  | cons e t ih =>
    by_cases h : e.1 = k
    · simp [alistGet, h]
    · simp [alistGet, h, ih, Ne.symm h]

theorem alistGet_genInsert (m : List (String × MData)) (k : String) (f : MData → MData)
    (u : String) :
    alistGet (genInsert m k f) u =
      if u = k then some (f ((alistGet m u).getD emptyMData)) else alistGet m u := by
  unfold genInsert
  by_cases hs : (alistGet m k).isSome = true
  · rw [if_pos hs, alistGet_map_setKey]
    by_cases huk : u = k
    · subst huk
      obtain ⟨d, hd⟩ := Option.isSome_iff_exists.mp hs
      simp [hd]
    · simp [huk]
  · rw [if_neg hs, alistGet_append]
    by_cases huk : u = k
    · subst huk
      have hm : alistGet m u = none := Option.not_isSome_iff_eq_none.mp hs
      simp [hm, alistGet]
    · by_cases hm : (alistGet m u).isSome = true
      · obtain ⟨d, hd⟩ := Option.isSome_iff_exists.mp hm
        simp [hd, huk]
      · have hm' : alistGet m u = none := Option.not_isSome_iff_eq_none.mp hm
        have hku : k ≠ u := fun h => huk h.symm
        simp [hm', alistGet, huk, hku]

theorem keys_genInsert (m : List (String × MData)) (k : String) (f : MData → MData) :
    (genInsert m k f).map Prod.fst =
      if k ∈ m.map Prod.fst then m.map Prod.fst else m.map Prod.fst ++ [k] := by
  unfold genInsert
  by_cases hs : (alistGet m k).isSome = true
  · rw [if_pos hs, if_pos ((alistGet_isSome_iff m k).mp hs)]
    rw [List.map_map]
    apply List.map_congr_left
    intro e _
    by_cases h : e.1 = k <;> simp [h]
  · rw [if_neg hs, if_neg (fun hmem => hs ((alistGet_isSome_iff m k).mpr hmem))]
    simp

theorem alistGet_of_mem_nodup {β : Type} (m : List (String × β))
    (hn : (m.map Prod.fst).Nodup) (e : String × β) (he : e ∈ m) :
    alistGet m e.1 = some e.2 := by
  induction m with
  | nil => cases he
  | cons x t ih =>
    rcases List.mem_cons.mp he with rfl | ht
    · simp [alistGet]
    · have hne : x.1 ≠ e.1 := by
        intro hx
        have : e.1 ∈ t.map Prod.fst := List.mem_map.mpr ⟨e, ht, rfl⟩
        rw [List.map_cons, List.nodup_cons] at hn
        exact hn.1 (hx ▸ this)
      have hn' : (t.map Prod.fst).Nodup := by
        rw [List.map_cons, List.nodup_cons] at hn
        exact hn.2
      simp [alistGet, hne, ih hn' ht]

/-- The last record of `ps` whose `url` is `u` — the one whose fields
survive the accumulation loop, since later rows overwrite earlier ones. -/
def lastRec (ps : List PageRecord) (u : String) : Option PageRecord :=
  (ps.filter (fun p => p.url = u)).getLast?

theorem lastRec_nil (u : String) : lastRec [] u = none := rfl

theorem lastRec_cons (p : PageRecord) (ps : List PageRecord) (u : String) :
    lastRec (p :: ps) u =
      if p.url = u then (lastRec ps u).or (some p) else lastRec ps u := by
  unfold lastRec
  by_cases h : p.url = u
  · rw [if_pos h, List.filter_cons_of_pos (by simpa using h),
      show p :: (ps.filter fun p => p.url = u) = [p] ++ (ps.filter fun p => p.url = u) from rfl,
      List.getLast?_append]
    rfl
  · rw [if_neg h, List.filter_cons_of_neg (by simpa using h)]

theorem lastRec_eq_none_iff (ps : List PageRecord) (u : String) :
    lastRec ps u = none ↔ ∀ p ∈ ps, p.url ≠ u := by
  unfold lastRec
  rw [List.getLast?_eq_none_iff, List.filter_eq_nil_iff]
  simp

theorem lastRec_mem (ps : List PageRecord) (u : String) (p : PageRecord)
    (h : lastRec ps u = some p) : p ∈ ps ∧ p.url = u := by
  have hm := List.mem_of_getLast?_eq_some h
  simpa using List.mem_filter.mp hm

theorem setPrevFields_setPrevFields (d : MData) (p q : PageRecord) :
    setPrevFields (setPrevFields d p) q = setPrevFields d q := rfl

theorem setCurrFields_setCurrFields (d : MData) (p q : PageRecord) :
    setCurrFields (setCurrFields d p) q = setCurrFields d q := rfl

theorem alistGet_foldl_insertPrev (ps : List PageRecord) (m : List (String × MData))
    (u : String) :
    alistGet (ps.foldl insertPrev m) u =
      match lastRec ps u with
      | some p => some (setPrevFields ((alistGet m u).getD emptyMData) p)
      | none => alistGet m u := by
  induction ps generalizing m with
  | nil => rw [lastRec_nil, List.foldl_nil]
  | cons p t ih =>
    rw [List.foldl_cons, ih, lastRec_cons]
    have hstep : alistGet (insertPrev m p) u =
        if u = p.url then some (setPrevFields ((alistGet m u).getD emptyMData) p)
        else alistGet m u := alistGet_genInsert m p.url (fun d => setPrevFields d p) u
    by_cases hpu : p.url = u
    · rw [if_pos hpu]
      cases hlast : lastRec t u with
      | some q =>
        rw [hstep, if_pos hpu.symm]
        simp [setPrevFields_setPrevFields]
      | none =>
        rw [hstep, if_pos hpu.symm]
        rfl
    · rw [if_neg hpu, hstep, if_neg (fun h => hpu h.symm)]

theorem alistGet_foldl_insertCurr (ps : List PageRecord) (m : List (String × MData))
    (u : String) :
    alistGet (ps.foldl insertCurr m) u =
      match lastRec ps u with
      | some p => some (setCurrFields ((alistGet m u).getD emptyMData) p)
      | none => alistGet m u := by
  induction ps generalizing m with
  | nil => rw [lastRec_nil, List.foldl_nil]
  | cons p t ih =>
    rw [List.foldl_cons, ih, lastRec_cons]
    have hstep : alistGet (insertCurr m p) u =
        if u = p.url then some (setCurrFields ((alistGet m u).getD emptyMData) p)
        else alistGet m u := alistGet_genInsert m p.url (fun d => setCurrFields d p) u
    by_cases hpu : p.url = u
    · rw [if_pos hpu]
      cases hlast : lastRec t u with
      | some q =>
        rw [hstep, if_pos hpu.symm]
        simp [setCurrFields_setCurrFields]
      | none =>
        rw [hstep, if_pos hpu.symm]
        rfl
    · rw [if_neg hpu, hstep, if_neg (fun h => hpu h.symm)]

/-- Characterization of the merged dict entry for each URL: the `prev_*`
fields come from the last previous-period record with that URL, the
`current_*` fields from the last current-period record. -/
theorem alistGet_mergedDict (prev_pages curr_pages : List PageRecord) (u : String) :
    alistGet (mergedDict prev_pages curr_pages) u =
      match lastRec prev_pages u, lastRec curr_pages u with
      | none, none => none
      | some p, none => some (setPrevFields emptyMData p)
      | none, some q => some (setCurrFields emptyMData q)
      | some p, some q => some (setCurrFields (setPrevFields emptyMData p) q) := by
  unfold mergedDict
  rw [alistGet_foldl_insertCurr, alistGet_foldl_insertPrev]
  cases lastRec prev_pages u with
  | none =>
    cases lastRec curr_pages u with
    | none => rfl
    | some q => rfl
  | some p =>
    cases lastRec curr_pages u with
    | none => rfl
    | some q => rfl

/-- First-appearance accumulation of keys: Python dict insertion order. -/
def addKeys (ks : List String) (us : List String) : List String :=
  us.foldl (fun acc u => if u ∈ acc then acc else acc ++ [u]) ks

theorem addKeys_nil (ks : List String) : addKeys ks [] = ks := rfl

theorem addKeys_cons (ks : List String) (u : String) (us : List String) :
    addKeys ks (u :: us) = addKeys (if u ∈ ks then ks else ks ++ [u]) us := rfl

theorem addKeys_append (ks us vs : List String) :
    addKeys ks (us ++ vs) = addKeys (addKeys ks us) vs := by
  unfold addKeys
  rw [List.foldl_append]

theorem mem_addKeys (ks us : List String) (x : String) :
    x ∈ addKeys ks us ↔ x ∈ ks ∨ x ∈ us := by
  induction us generalizing ks with
  | nil => simp [addKeys_nil]
  | cons u t ih =>
    rw [addKeys_cons, ih]
    by_cases h : u ∈ ks
    · simp only [if_pos h, List.mem_cons]
      constructor
      · rintro (hx | hx)
        · exact Or.inl hx
        · exact Or.inr (Or.inr hx)
      · rintro (hx | rfl | hx)
        · exact Or.inl hx
        · exact Or.inl h
        · exact Or.inr hx
    · simp only [if_neg h, List.mem_append, List.mem_singleton, List.mem_cons]
      tauto

theorem addKeys_nodup (ks us : List String) (h : ks.Nodup) : (addKeys ks us).Nodup := by
  induction us generalizing ks with
  | nil => simpa [addKeys_nil] using h
  | cons u t ih =>
    rw [addKeys_cons]
    by_cases hu : u ∈ ks
    · rw [if_pos hu]
      exact ih ks h
    · rw [if_neg hu]
      refine ih _ ?_
      rw [List.nodup_append]
      exact ⟨h, List.nodup_singleton u, by simpa using hu⟩

theorem keys_foldl_insertPrev (ps : List PageRecord) (m : List (String × MData)) :
    (ps.foldl insertPrev m).map Prod.fst = addKeys (m.map Prod.fst) (ps.map (fun p => p.url)) := by
  induction ps generalizing m with
  | nil => rw [List.foldl_nil, List.map_nil, addKeys_nil]
  | cons p t ih =>
    rw [List.foldl_cons, ih, List.map_cons, addKeys_cons]
    congr 1
    rw [show insertPrev m p = genInsert m p.url (fun d => setPrevFields d p) from rfl,
      keys_genInsert]

theorem keys_foldl_insertCurr (ps : List PageRecord) (m : List (String × MData)) :
    (ps.foldl insertCurr m).map Prod.fst = addKeys (m.map Prod.fst) (ps.map (fun p => p.url)) := by
  induction ps generalizing m with
  | nil => rw [List.foldl_nil, List.map_nil, addKeys_nil]
  | cons p t ih =>
    rw [List.foldl_cons, ih, List.map_cons, addKeys_cons]
    congr 1
    rw [show insertCurr m p = genInsert m p.url (fun d => setCurrFields d p) from rfl,
      keys_genInsert]

/-- The merged dict lists one entry per distinct URL, in first-appearance
order: previous-period URLs first, then current-only URLs. -/
theorem keys_mergedDict (prev_pages curr_pages : List PageRecord) :
    (mergedDict prev_pages curr_pages).map Prod.fst =
      addKeys [] (prev_pages.map (fun p => p.url) ++ curr_pages.map (fun p => p.url)) := by
  unfold mergedDict
  rw [keys_foldl_insertCurr, keys_foldl_insertPrev, addKeys_append]
  rfl

theorem keys_mergedDict_nodup (prev_pages curr_pages : List PageRecord) :
    ((mergedDict prev_pages curr_pages).map Prod.fst).Nodup := by
  rw [keys_mergedDict]
  exact addKeys_nodup [] _ List.nodup_nil

/-! ## Per-page characterization of the reconciler output -/

theorem finalizePage_url (paths : List String) (e : String × MData) :
    (finalizePage paths e).url = e.1 := rfl

theorem finalizePage_prev (paths : List String) (e : String × MData) :
    (finalizePage paths e).prev_traffic = e.2.prev_traffic.getD 0 := rfl

theorem finalizePage_curr (paths : List String) (e : String × MData) :
    (finalizePage paths e).current_traffic = e.2.current_traffic.getD 0 := rfl

theorem finalizePage_kwp (paths : List String) (e : String × MData) :
    (finalizePage paths e).top_keyword_prev = e.2.top_keyword_prev := rfl

theorem finalizePage_kwc (paths : List String) (e : String × MData) :
    (finalizePage paths e).top_keyword_current = e.2.top_keyword_current := rfl

theorem finalizePage_diff (paths : List String) (e : String × MData) :
    (finalizePage paths e).diff = e.2.current_traffic.getD 0 - e.2.prev_traffic.getD 0 := rfl

theorem finalizePage_ratio (paths : List String) (e : String × MData) :
    (finalizePage paths e).diff_ratio =
      if e.2.prev_traffic.getD 0 > 0 then
        some ((e.2.current_traffic.getD 0 - e.2.prev_traffic.getD 0) / e.2.prev_traffic.getD 0 * 100)
      else none := rfl

theorem finalizePage_blog (paths : List String) (e : String × MData) :
    (finalizePage paths e).is_blog = paths.any (fun path => strHasSub e.1 path) := rfl

theorem merge_months_pages (prev_pages curr_pages : List PageRecord) (paths : List String) :
    (merge_months prev_pages curr_pages paths).pages =
      (mergedDict prev_pages curr_pages).map (finalizePage paths) := rfl

theorem pages_map_url (prev_pages curr_pages : List PageRecord) (paths : List String) :
    (merge_months prev_pages curr_pages paths).pages.map (fun p => p.url) =
      addKeys [] (prev_pages.map (fun p => p.url) ++ curr_pages.map (fun p => p.url)) := by
  rw [merge_months_pages, List.map_map, ← keys_mergedDict]
  apply List.map_congr_left
  intro e _
  exact finalizePage_url paths e

theorem mem_merge_pages (prev_pages curr_pages : List PageRecord) (paths : List String)
    (page : MergedPage) (h : page ∈ (merge_months prev_pages curr_pages paths).pages) :
    ∃ d, alistGet (mergedDict prev_pages curr_pages) page.url = some d ∧
      page = finalizePage paths (page.url, d) := by
  rw [merge_months_pages] at h
  obtain ⟨e, he, rfl⟩ := List.mem_map.mp h
  rw [finalizePage_url]
  exact ⟨e.2, alistGet_of_mem_nodup _ (keys_mergedDict_nodup prev_pages curr_pages) e he, rfl⟩

/-- The traffic that `merge_months` attributes to URL `u` for one period:
the last record with that URL, defaulting to 0. -/
def trafficOfLast (ps : List PageRecord) (u : String) : ℚ :=
  match lastRec ps u with
  | some p => p.traffic
  | none => 0

/-- The keyword that `merge_months` attributes to URL `u` for one period. -/
def kwOfLast (ps : List PageRecord) (u : String) : Option String :=
  (lastRec ps u).bind (fun p => p.top_keyword)

/-- Every page of the reconciler output takes its per-period fields from the
LAST record with its URL in that period (0 / absent when the period lacks the
URL), and its derived fields follow the diff / guarded-ratio / substring-blog
formulas. -/
theorem merge_page_fields (prev_pages curr_pages : List PageRecord) (paths : List String)
    (page : MergedPage) (h : page ∈ (merge_months prev_pages curr_pages paths).pages) :
    page.prev_traffic = trafficOfLast prev_pages page.url ∧
    page.current_traffic = trafficOfLast curr_pages page.url ∧
    page.top_keyword_prev = kwOfLast prev_pages page.url ∧
    page.top_keyword_current = kwOfLast curr_pages page.url ∧
    page.diff = page.current_traffic - page.prev_traffic ∧
    page.diff_ratio = (if page.prev_traffic > 0
      then some (page.diff / page.prev_traffic * 100) else none) ∧
    page.is_blog = paths.any (fun path => strHasSub page.url path) := by
  obtain ⟨d, hd, hpage⟩ := mem_merge_pages prev_pages curr_pages paths page h
  rw [alistGet_mergedDict] at hd
  have hfields : d.prev_traffic = (lastRec prev_pages page.url).map (fun p => p.traffic) ∧
      d.top_keyword_prev = kwOfLast prev_pages page.url ∧
      d.current_traffic = (lastRec curr_pages page.url).map (fun p => p.traffic) ∧
      d.top_keyword_current = kwOfLast curr_pages page.url := by
    cases hp : lastRec prev_pages page.url with
    | none =>
      cases hc : lastRec curr_pages page.url with
      | none =>
        rw [hp, hc] at hd
        cases hd
      | some q =>
        rw [hp, hc] at hd
        injection hd with hd'
        subst hd'
        simp [setCurrFields, emptyMData, kwOfLast, hp, hc]
    | some p =>
      cases hc : lastRec curr_pages page.url with
      | none =>
        rw [hp, hc] at hd
        injection hd with hd'
        subst hd'
        simp [setPrevFields, emptyMData, kwOfLast, hp, hc]
      | some q =>
        rw [hp, hc] at hd
        injection hd with hd'
        subst hd'
        simp [setPrevFields, setCurrFields, emptyMData, kwOfLast, hp, hc]
  obtain ⟨f1, f2, f3, f4⟩ := hfields
  have hprev : page.prev_traffic = trafficOfLast prev_pages page.url := by
    conv_lhs => rw [hpage]
    rw [finalizePage_prev]
    show d.prev_traffic.getD 0 = _
    rw [f1]
    unfold trafficOfLast
    cases lastRec prev_pages page.url <;> rfl
  have hcurr : page.current_traffic = trafficOfLast curr_pages page.url := by
    conv_lhs => rw [hpage]
    rw [finalizePage_curr]
    show d.current_traffic.getD 0 = _
    rw [f3]
    unfold trafficOfLast
    cases lastRec curr_pages page.url <;> rfl
  refine ⟨hprev, hcurr, ?_, ?_, ?_, ?_, ?_⟩
  · conv_lhs => rw [hpage]
    rw [finalizePage_kwp]
    exact f2
  · conv_lhs => rw [hpage]
    rw [finalizePage_kwc]
    exact f4
  · conv_lhs => rw [hpage]
    rw [finalizePage_diff]
    show d.current_traffic.getD 0 - d.prev_traffic.getD 0 = _
    rw [hprev, hcurr]
    congr 1
    · rw [f3]
      unfold trafficOfLast
      cases lastRec curr_pages page.url <;> rfl
    · rw [f1]
      unfold trafficOfLast
      cases lastRec prev_pages page.url <;> rfl
  · conv_lhs => rw [hpage]
    rw [finalizePage_ratio]
    have e1 : d.prev_traffic.getD 0 = page.prev_traffic := by
      rw [hprev, f1]
      unfold trafficOfLast
      cases lastRec prev_pages page.url <;> rfl
    have e2 : d.current_traffic.getD 0 = page.current_traffic := by
      rw [hcurr, f3]
      unfold trafficOfLast
      cases lastRec curr_pages page.url <;> rfl
    have e3 : page.diff = page.current_traffic - page.prev_traffic := by
      conv_lhs => rw [hpage]
      rw [finalizePage_diff, e1, e2]
    rw [e1, e2, e3]
  · conv_lhs => rw [hpage]
    rw [finalizePage_blog]

theorem length_addKeys_eq_card (l : List String) :
    (addKeys [] l).length = l.toFinset.card := by
  have hnd := addKeys_nodup [] l List.nodup_nil
  have hmem : ∀ x, x ∈ addKeys [] l ↔ x ∈ l := by
    intro x
    simpa using mem_addKeys [] l x
  rw [← List.toFinset_card_of_nodup hnd]
  congr 1
  ext x
  simp [List.mem_toFinset, hmem x]

theorem filter_url_length_one (l : List MergedPage)
    (hn : (l.map (fun p => p.url)).Nodup) (x : MergedPage) (hx : x ∈ l) :
    (l.filter (fun y => y.url = x.url)).length = 1 := by
  induction l with
  | nil => cases hx
  | cons a t ih =>
    rw [List.map_cons, List.nodup_cons] at hn
    rcases List.mem_cons.mp hx with rfl | ht
    · rw [List.filter_cons_of_pos (by simp)]
      have hnone : t.filter (fun y => y.url = x.url) = [] := by
        rw [List.filter_eq_nil_iff]
        intro b hb hfb
        have hburl : b.url = x.url := by simpa using hfb
        exact hn.1 (hburl ▸ List.mem_map.mpr ⟨b, hb, rfl⟩)
      rw [hnone]
      rfl
    · have hne : ¬ (a.url = x.url) := by
        intro he
        exact hn.1 (he ▸ List.mem_map.mpr ⟨x, ht, rfl⟩)
      rw [List.filter_cons_of_neg (by simpa using hne)]
      exact ih hn.2 ht

/-- C3: one `MergedPage` per distinct URL (the output's URL list is
duplicate-free and covers exactly the URLs seen in either period, so its
length is `|prev ∪ curr|` by URL), and a URL absent from one period gets
that period's traffic defaulted to 0 and keyword absent. -/
theorem C3_one_page_per_url (prev_pages curr_pages : List PageRecord) (paths : List String) :
    ((merge_months prev_pages curr_pages paths).pages.map (fun p => p.url)).Nodup ∧
    (∀ u, u ∈ (merge_months prev_pages curr_pages paths).pages.map (fun p => p.url) ↔
      (u ∈ prev_pages.map (fun p => p.url) ∨ u ∈ curr_pages.map (fun p => p.url))) ∧
    (merge_months prev_pages curr_pages paths).pages.length =
      (prev_pages.map (fun p => p.url) ++ curr_pages.map (fun p => p.url)).toFinset.card ∧
    (∀ page ∈ (merge_months prev_pages curr_pages paths).pages,
      (∀ p ∈ prev_pages, p.url ≠ page.url) →
        page.prev_traffic = 0 ∧ page.top_keyword_prev = none) ∧
    (∀ page ∈ (merge_months prev_pages curr_pages paths).pages,
      (∀ p ∈ curr_pages, p.url ≠ page.url) →
        page.current_traffic = 0 ∧ page.top_keyword_current = none) := by
  refine ⟨?_, ?_, ?_, ?_, ?_⟩
  · rw [pages_map_url]
    exact addKeys_nodup [] _ List.nodup_nil
  · intro u
    rw [pages_map_url]
    have h := mem_addKeys []
      (prev_pages.map (fun p => p.url) ++ curr_pages.map (fun p => p.url)) u
    simp only [List.not_mem_nil, false_or, List.mem_append] at h
    exact h
  · rw [← List.length_map (merge_months prev_pages curr_pages paths).pages (fun p => p.url),
      pages_map_url]
    exact length_addKeys_eq_card _
  · intro page hpage hnone
    have hlast : lastRec prev_pages page.url = none :=
      (lastRec_eq_none_iff prev_pages page.url).mpr hnone
    obtain ⟨h1, -, h3, -⟩ := merge_page_fields prev_pages curr_pages paths page hpage
    constructor
    · rw [h1]
      unfold trafficOfLast
      rw [hlast]
    · rw [h3]
      unfold kwOfLast
      rw [hlast]
      rfl
  · intro page hpage hnone
    have hlast : lastRec curr_pages page.url = none :=
      (lastRec_eq_none_iff curr_pages page.url).mpr hnone
    obtain ⟨-, h2, -, h4, -⟩ := merge_page_fields prev_pages curr_pages paths page hpage
    constructor
    · rw [h2]
      unfold trafficOfLast
      rw [hlast]
    · rw [h4]
      unfold kwOfLast
      rw [hlast]
      rfl

/-- C3 witness: the disjoint two-URL instance from the scenario. -/
theorem C3_one_page_per_url_witness :
    (merge_months [⟨"/a", 5, none⟩] [⟨"/b", 7, none⟩] []).pages.length =
      (["/a"] ++ ["/b"]).toFinset.card ∧
    ((merge_months [⟨"/a", 5, none⟩] [⟨"/b", 7, none⟩] []).pages.map (fun p => p.url)).Nodup :=
  ⟨(C3_one_page_per_url [⟨"/a", 5, none⟩] [⟨"/b", 7, none⟩] []).2.2.1,
   (C3_one_page_per_url [⟨"/a", 5, none⟩] [⟨"/b", 7, none⟩] []).1⟩

/-- C10: when a URL repeats within one period's records, the reconciler keeps
the LAST occurrence's traffic and keyword for that period, and still emits
exactly one `MergedPage` for that URL. -/
theorem C10_last_occurrence_wins (prev_pages curr_pages : List PageRecord) (paths : List String) :
    ∀ page ∈ (merge_months prev_pages curr_pages paths).pages,
      page.prev_traffic = trafficOfLast prev_pages page.url ∧
      page.top_keyword_prev = kwOfLast prev_pages page.url ∧
      page.current_traffic = trafficOfLast curr_pages page.url ∧
      page.top_keyword_current = kwOfLast curr_pages page.url ∧
      ((merge_months prev_pages curr_pages paths).pages.filter
        (fun q => q.url = page.url)).length = 1 := by
  intro page hpage
  obtain ⟨h1, h2, h3, h4, -⟩ := merge_page_fields prev_pages curr_pages paths page hpage
  refine ⟨h1, h3, h2, h4, ?_⟩
  refine filter_url_length_one _ ?_ page hpage
  rw [pages_map_url]
  exact addKeys_nodup [] _ List.nodup_nil

/-- C10 witness: two previous-period rows share `/a`; the later one (traffic
9, keyword kw2) wins, and `/a` appears exactly once in the output. -/
theorem C10_last_occurrence_wins_witness :
    (merge_months [⟨"/a", 5, some "kw1"⟩, ⟨"/a", 9, some "kw2"⟩] [] []).pages.length = 1 ∧
    ∀ page ∈ (merge_months [⟨"/a", 5, some "kw1"⟩, ⟨"/a", 9, some "kw2"⟩] [] []).pages,
      page.prev_traffic = trafficOfLast [⟨"/a", 5, some "kw1"⟩, ⟨"/a", 9, some "kw2"⟩] page.url :=
  ⟨by decide, fun page hpage =>
    (C10_last_occurrence_wins [⟨"/a", 5, some "kw1"⟩, ⟨"/a", 9, some "kw2"⟩] [] [] page hpage).1⟩

/-! ## C2 / C4: ratio policy and aggregation -/

theorem trafficOfLast_nonneg (ps : List PageRecord) (u : String)
    (h : ∀ p ∈ ps, 0 ≤ p.traffic) : 0 ≤ trafficOfLast ps u := by
  unfold trafficOfLast
  cases hl : lastRec ps u with
  | none => exact le_refl 0
  | some p => exact h p (lastRec_mem ps u p hl).1

/-- Evaluation of `_summarize_pages` in closed form: both branches produce the sums, their
difference, the guarded ratio and the length. -/
theorem summarize_eq (pages : List MergedPage) :
    _summarize_pages pages =
      ⟨(pages.map (fun p => p.prev_traffic)).sum,
       (pages.map (fun p => p.current_traffic)).sum,
       (pages.map (fun p => p.current_traffic)).sum - (pages.map (fun p => p.prev_traffic)).sum,
       (if (pages.map (fun p => p.prev_traffic)).sum > 0 then
          some (((pages.map (fun p => p.current_traffic)).sum -
            (pages.map (fun p => p.prev_traffic)).sum) /
            (pages.map (fun p => p.prev_traffic)).sum * 100)
        else none),
       pages.length⟩ := by
  unfold _summarize_pages
  cases pages with
  | nil => simp
  | cons p t => rfl

/-- C4: the aggregator returns the pointwise sums, their difference, the
ratio computed from the summed totals under the zero-baseline absence
policy, and the input length; the empty input yields all-zero totals, an
absent ratio and count 0, without error. -/
theorem C4_aggregate_sums (pages : List MergedPage)
    (h : ∀ page ∈ pages, 0 ≤ page.prev_traffic) :
    (_summarize_pages pages).total_traffic_prev = (pages.map (fun p => p.prev_traffic)).sum ∧
    (_summarize_pages pages).total_traffic_current =
      (pages.map (fun p => p.current_traffic)).sum ∧
    (_summarize_pages pages).total_diff =
      (pages.map (fun p => p.current_traffic)).sum - (pages.map (fun p => p.prev_traffic)).sum ∧
    ((pages.map (fun p => p.prev_traffic)).sum = 0 →
      (_summarize_pages pages).total_diff_ratio = none) ∧
    ((pages.map (fun p => p.prev_traffic)).sum ≠ 0 →
      (_summarize_pages pages).total_diff_ratio =
        some (((pages.map (fun p => p.current_traffic)).sum -
          (pages.map (fun p => p.prev_traffic)).sum) /
          (pages.map (fun p => p.prev_traffic)).sum * 100)) ∧
    (_summarize_pages pages).page_count = pages.length ∧
    _summarize_pages [] = ⟨0, 0, 0, none, 0⟩ := by
  have hsum : 0 ≤ (pages.map (fun p => p.prev_traffic)).sum := by
    apply List.sum_nonneg
    intro x hx
    obtain ⟨page, hpage, rfl⟩ := List.mem_map.mp hx
    exact h page hpage
  rw [summarize_eq]
  refine ⟨rfl, rfl, rfl, ?_, ?_, rfl, by simp [summarize_eq]⟩
  · intro h0
    simp only [h0]
    rw [if_neg (lt_irrefl 0)]
  · intro hne
    have hpos : (pages.map (fun p => p.prev_traffic)).sum > 0 :=
      lt_of_le_of_ne hsum (Ne.symm hne)
    rw [if_pos hpos]

/-- C4 witness at a concrete two-page input. -/
theorem C4_aggregate_sums_witness :
    (∀ page ∈ [(⟨"/a", 4, 8, 4, some 100, none, none, false⟩ : MergedPage),
       ⟨"/b", 0, 2, 2, none, none, none, true⟩], 0 ≤ page.prev_traffic) ∧
    (_summarize_pages [⟨"/a", 4, 8, 4, some 100, none, none, false⟩,
       ⟨"/b", 0, 2, 2, none, none, none, true⟩]).page_count =
      [(⟨"/a", 4, 8, 4, some 100, none, none, false⟩ : MergedPage),
       ⟨"/b", 0, 2, 2, none, none, none, true⟩].length :=
  ⟨by decide,
   (C4_aggregate_sums [⟨"/a", 4, 8, 4, some 100, none, none, false⟩,
     ⟨"/b", 0, 2, 2, none, none, none, true⟩] (by decide)).2.2.2.2.2.1⟩

/-- C2: the diff ratio of every reconciled page, and of every aggregator
summary over pages with nonnegative baselines, is absent exactly when the
baseline is 0 and otherwise equals `(current - prev) / prev * 100`; the two
pipeline summaries are aggregator applications. -/
theorem C2_zero_baseline_policy (prev_pages curr_pages : List PageRecord) (paths : List String)
    (hprev : ∀ p ∈ prev_pages, 0 ≤ p.traffic) :
    (∀ page ∈ (merge_months prev_pages curr_pages paths).pages,
      (page.prev_traffic = 0 → page.diff_ratio = none) ∧
      (page.prev_traffic ≠ 0 → page.diff_ratio =
        some ((page.current_traffic - page.prev_traffic) / page.prev_traffic * 100))) ∧
    (merge_months prev_pages curr_pages paths).summary_all =
      _summarize_pages (merge_months prev_pages curr_pages paths).pages ∧
    (merge_months prev_pages curr_pages paths).summary_blog_only =
      _summarize_pages ((merge_months prev_pages curr_pages paths).pages.filter
        (fun p => p.is_blog)) ∧
    (∀ pages' : List MergedPage, (∀ page ∈ pages', 0 ≤ page.prev_traffic) →
      ((_summarize_pages pages').total_traffic_prev = 0 →
        (_summarize_pages pages').total_diff_ratio = none) ∧
      ((_summarize_pages pages').total_traffic_prev ≠ 0 →
        (_summarize_pages pages').total_diff_ratio =
          some (((_summarize_pages pages').total_traffic_current -
            (_summarize_pages pages').total_traffic_prev) /
            (_summarize_pages pages').total_traffic_prev * 100))) := by
  refine ⟨?_, rfl, rfl, ?_⟩
  · intro page hpage
    obtain ⟨h1, -, -, -, h5, h6, -⟩ :=
      merge_page_fields prev_pages curr_pages paths page hpage
    have hnn : 0 ≤ page.prev_traffic := h1 ▸ trafficOfLast_nonneg prev_pages page.url hprev
    constructor
    · intro h0
      rw [h6, h0]
      rw [if_neg (lt_irrefl 0)]
    · intro hne
      have hpos : page.prev_traffic > 0 := lt_of_le_of_ne hnn (Ne.symm hne)
      rw [h6, if_pos hpos, h5]
  · intro pages' hnn
    obtain ⟨e1, e2, -, e4, e5, -, -⟩ := C4_aggregate_sums pages' hnn
    constructor
    · intro h0
      exact e4 (e1 ▸ h0)
    · intro hne
      rw [e5 (fun hc => hne (e1 ▸ hc)), e1, e2]

/-- C2 witness: a singleton previous period with traffic 4 against an empty
current period; the page's baseline is nonzero so the ratio is the formula,
and the empty aggregator input has baseline 0 and absent ratio. -/
theorem C2_zero_baseline_policy_witness :
    (∀ p ∈ [(⟨"/a", 4, none⟩ : PageRecord)], 0 ≤ p.traffic) ∧
    (∀ pages' : List MergedPage, (∀ page ∈ pages', 0 ≤ page.prev_traffic) →
      ((_summarize_pages pages').total_traffic_prev = 0 →
        (_summarize_pages pages').total_diff_ratio = none) ∧
      ((_summarize_pages pages').total_traffic_prev ≠ 0 →
        (_summarize_pages pages').total_diff_ratio =
          some (((_summarize_pages pages').total_traffic_current -
            (_summarize_pages pages').total_traffic_prev) /
            (_summarize_pages pages').total_traffic_prev * 100))) :=
  ⟨by decide, (C2_zero_baseline_policy [⟨"/a", 4, none⟩] [] [] (by decide)).2.2.2⟩

/-! ## C5: missing-column fail-fast -/

theorem mem_missingOf_url (a b c : Option String) : "URL" ∈ missingOf a b c ↔ a = none := by
  cases a <;> cases b <;> cases c <;> simp [missingOf]

theorem mem_missingOf_traffic (a b c : Option String) : "Traffic" ∈ missingOf a b c ↔ b = none := by
  cases a <;> cases b <;> cases c <;> simp [missingOf]

theorem mem_missingOf_keyword (a b c : Option String) :
    "Top keyword" ∈ missingOf a b c ↔ c = none := by
  cases a <;> cases b <;> cases c <;> simp [missingOf]

/-- C5: whenever any of the three columns can be neither inferred nor was
supplied, extraction fails with a `MissingColumnError` that does not depend
on the data rows at all (fail-fast before row scanning), carries the full
observed header list, and whose `missing` names exactly the unresolved
fields. -/
theorem C5_missing_column_fail_fast (headers : List String)
    (uOpt tOpt kOpt : Option String)
    (hmiss : resolveCol uOpt headers "url" = none ∨
      resolveCol tOpt headers "traffic" = none ∨
      resolveCol kOpt headers "keyword" = none) :
    ∃ e : MissingColumnError,
      (∀ rows : List Row, load_csv_pages_auto headers rows uOpt tOpt kOpt = .error e) ∧
      e.headers = headers ∧
      ("URL" ∈ e.missing ↔ resolveCol uOpt headers "url" = none) ∧
      ("Traffic" ∈ e.missing ↔ resolveCol tOpt headers "traffic" = none) ∧
      ("Top keyword" ∈ e.missing ↔ resolveCol kOpt headers "keyword" = none) := by
  refine ⟨⟨missingOf (resolveCol uOpt headers "url") (resolveCol tOpt headers "traffic")
    (resolveCol kOpt headers "keyword"), headers⟩, ?_, rfl,
    mem_missingOf_url _ _ _, mem_missingOf_traffic _ _ _, mem_missingOf_keyword _ _ _⟩
  intro rows
  unfold load_csv_pages_auto
  rcases huc : resolveCol uOpt headers "url" with _ | u <;>
    rcases htc : resolveCol tOpt headers "traffic" with _ | t <;>
      rcases hkc : resolveCol kOpt headers "keyword" with _ | k <;>
        simp only [huc, htc, hkc] at hmiss ⊢ <;> try rfl
  rcases hmiss with h | h | h <;> cases h

/-- C5 witness: the header `["link", "hits"]` resolves none of the three
columns, so extraction fails with the row-independent error. -/
theorem C5_missing_column_witness :
    ∃ e : MissingColumnError,
      (∀ rows : List Row, load_csv_pages_auto ["link", "hits"] rows none none none = .error e) ∧
      e.headers = ["link", "hits"] ∧
      ("URL" ∈ e.missing ↔ resolveCol none ["link", "hits"] "url" = none) ∧
      ("Traffic" ∈ e.missing ↔ resolveCol none ["link", "hits"] "traffic" = none) ∧
      ("Top keyword" ∈ e.missing ↔ resolveCol none ["link", "hits"] "keyword" = none) :=
  C5_missing_column_fail_fast ["link", "hits"] none none none (Or.inl (by decide))

/-! ## C6: silent row skipping -/

theorem pyFloat_empty : pyFloat "" = none := by decide

/-- C6: a data row is skipped — never raising and never aborting the file —
exactly when its URL field is absent or empty, its traffic field is absent,
or its cleaned traffic field (commas and surrounding whitespace removed,
which maps `""` to `""`) fails to parse as a number; every other row is
emitted as a `PageRecord` with the keyword carried through as-is; and on
resolved columns the whole file yields exactly the per-row results, skipped
rows dropped. -/
theorem C6_row_skip_rules (u t k : String) :
    (∀ row : Row,
      (extractRow u t k row = none ↔
        pyFalsy (alistGet row u) = true ∨ alistGet row t = none ∨
        ∃ s, alistGet row t = some s ∧ pyFloat (cleanTraffic s) = none)) ∧
    (∀ row : Row, ∀ url s v, alistGet row u = some url → url ≠ "" →
      alistGet row t = some s → pyFloat (cleanTraffic s) = some v →
      extractRow u t k row = some ⟨url, v, alistGet row k⟩) ∧
    (∀ headers : List String, ∀ rows : List Row, ∀ uO tO kO : Option String,
      resolveCol uO headers "url" = some u →
      resolveCol tO headers "traffic" = some t →
      resolveCol kO headers "keyword" = some k →
      load_csv_pages_auto headers rows uO tO kO = .ok (rows.filterMap (extractRow u t k))) := by
  have hclean_empty : cleanTraffic "" = "" := by decide
  refine ⟨?_, ?_, ?_⟩
  · intro row
    unfold extractRow
    split
    next heq =>
      simp [pyFalsy, heq]
    next url heq =>
      simp only [heq, pyFalsy]
      by_cases hurl : url = ""
      · subst hurl
        simp
      · rw [if_neg hurl]
        split
        next ht =>
          simp [ht, hurl]
        next s ht =>
          simp only [ht, Option.some.injEq]
          by_cases hs : s = ""
          · subst hs
            rw [if_pos rfl]
            constructor
            · intro _
              refine Or.inr (Or.inr ⟨"", rfl, ?_⟩)
              rw [hclean_empty]
              exact pyFloat_empty
            · intro _
              rfl
          · rw [if_neg hs]
            by_cases hc : cleanTraffic s = ""
            · rw [if_pos hc]
              constructor
              · intro _
                refine Or.inr (Or.inr ⟨s, rfl, ?_⟩)
                rw [hc]
                exact pyFloat_empty
              · intro _
                rfl
            · rw [if_neg hc]
              cases hpf : pyFloat (cleanTraffic s) with
              | none =>
                constructor
                · intro _
                  exact Or.inr (Or.inr ⟨s, rfl, hpf⟩)
                · intro _
                  rfl
              | some v =>
                constructor
                · intro hnone
                  cases hnone
                · rintro (hfalsy | habs | ⟨s2, hs2, hpf2⟩)
                  · simp [hurl] at hfalsy
                  · cases habs
                  · rw [← hs2] at hpf2
                    rw [hpf] at hpf2
                    cases hpf2
  · intro row url s v hu hurl ht hpf
    have hs : s ≠ "" := by
      intro h
      rw [h, hclean_empty, pyFloat_empty] at hpf
      cases hpf
    have hc : cleanTraffic s ≠ "" := by
      intro h
      rw [h, pyFloat_empty] at hpf
      cases hpf
    unfold extractRow
    simp only [hu, ht, if_neg hurl, if_neg hs, if_neg hc, hpf]
  · intro headers rows uO tO kO hu ht hk
    unfold load_csv_pages_auto
    rw [hu, ht, hk]

/-- C6 witness: a row with traffic `"-"` is silently skipped, a well-formed
row is emitted with its fields carried through. -/
theorem C6_row_skip_witness :
    extractRow "URL" "Traffic" "Top keyword" [("URL", "/a"), ("Traffic", "-")] = none ∧
    extractRow "URL" "Traffic" "Top keyword" [("URL", "/a"), ("Traffic", "5")] =
      some ⟨"/a", 5, none⟩ :=
  ⟨((C6_row_skip_rules "URL" "Traffic" "Top keyword").1
      [("URL", "/a"), ("Traffic", "-")]).mpr
    (Or.inr (Or.inr ⟨"-", rfl, by decide⟩)),
   (C6_row_skip_rules "URL" "Traffic" "Top keyword").2.1
    [("URL", "/a"), ("Traffic", "5")] "/a" "5" 5 rfl (by decide) rfl (by decide)⟩

/-! ## C9: empty-dataset rejection -/

/-- C9: given that both files extract successfully, the pipeline rejects
with the empty-dataset error exactly when BOTH extractions produced zero
usable rows; when at least one is non-empty it produces the normal merged
output. -/
theorem C9_empty_dataset (headers_prev : List String) (rows_prev : List Row)
    (headers_curr : List String) (rows_curr : List Row) (blog_paths : List String)
    (prev_pages curr_pages : List PageRecord)
    (h1 : load_csv_pages_auto headers_prev rows_prev none none none = .ok prev_pages)
    (h2 : load_csv_pages_auto headers_curr rows_curr none none none = .ok curr_pages) :
    (generate_report headers_prev rows_prev headers_curr rows_curr blog_paths =
        .error .emptyDataset ↔ (prev_pages = [] ∧ curr_pages = [])) ∧
    ((prev_pages ≠ [] ∨ curr_pages ≠ []) →
      generate_report headers_prev rows_prev headers_curr rows_curr blog_paths =
        .ok (merge_months prev_pages curr_pages blog_paths)) := by
  unfold generate_report
  simp only [h1, h2]
  by_cases hb : prev_pages.isEmpty = true ∧ curr_pages.isEmpty = true
  · rw [if_pos hb]
    obtain ⟨hbp, hbc⟩ := hb
    rw [List.isEmpty_iff] at hbp hbc
    subst hbp
    subst hbc
    constructor
    · simp
    · intro hne
      rcases hne with hne | hne <;> exact absurd rfl hne
  · rw [if_neg hb]
    constructor
    · constructor
      · intro hcontra
        exact Except.noConfusion hcontra
      · intro hboth
        exact absurd ⟨List.isEmpty_iff.mpr hboth.1, List.isEmpty_iff.mpr hboth.2⟩ hb
    · intro _
      rfl

/-- C9 witness: an empty previous file with a one-row current file is
tolerated and produces normal output. -/
theorem C9_empty_dataset_witness :
    (generate_report ["URL", "Traffic", "Top keyword"] []
        ["URL", "Traffic", "Top keyword"] [[("URL", "/a"), ("Traffic", "5")]] [] =
        .error .emptyDataset ↔
      (([] : List PageRecord) = [] ∧ [(⟨"/a", 5, none⟩ : PageRecord)] = [])) ∧
    ((([] : List PageRecord) ≠ [] ∨ [(⟨"/a", 5, none⟩ : PageRecord)] ≠ []) →
      generate_report ["URL", "Traffic", "Top keyword"] []
        ["URL", "Traffic", "Top keyword"] [[("URL", "/a"), ("Traffic", "5")]] [] =
        .ok (merge_months [] [⟨"/a", 5, none⟩] [])) :=
  C9_empty_dataset ["URL", "Traffic", "Top keyword"] [] ["URL", "Traffic", "Top keyword"]
    [[("URL", "/a"), ("Traffic", "5")]] [] [] [⟨"/a", 5, none⟩] (by decide) (by decide)

end Report
